import Mathlib

/-!
Verification of the folder-selector engine (src/extension.ts).

The engine is shallowly embedded: filesystem paths are lists of path
components, the filesystem itself is a function from a path to an optional
directory listing (`none` models a read failure), and the asynchronous BFS
loop of `scanFolders` becomes a fuel-indexed recursion over the explicit
loop state (queue, visited set, collected records).  The VS Code APIs used
by the code (`asRelativePath`, `getWorkspaceFolder`) are modelled as pure
functions over the list of workspace roots, and the matcher
(`filterFolders`) is embedded over JavaScript-style string operations
defined on character lists.
-/

set_option maxHeartbeats 1000000

namespace FolderSelector

/-- An absolute filesystem path, as its list of components. -/
abbrev Path := List String

/-- vscode.FileType, as far as the scanner distinguishes it. -/
inductive FileType where
  | file
  | directory
  | symbolicLink
  | unknown
  deriving DecidableEq

/-- The filesystem seen by the scanner: `readDirectory` either fails
(`none`, the `catch` branch of the source) or returns the entries. -/
abbrev Fs := Path → Option (List (String × FileType))

/-- ScanOptions from the source. -/
structure ScanOptions where
  maxFolders : Nat
  maxDepth : Nat
  ignoredFolders : List String
  ignoreDotFolders : Bool
  deriving DecidableEq

/-- CachedFolder from the source (uri is the absolute path). -/
structure CachedFolder where
  uri : Path
  relativePath : Path
  folderName : String
  workspaceRoot : Path
  lastModified : Nat
  deriving DecidableEq

/-- FolderCache from the source. -/
structure FolderCache where
  folders : List CachedFolder
  lastScan : Nat
  workspaceRoots : List Path
  version : String
  deriving DecidableEq

/-- JavaScript `s.includes(sub)`, on character lists. -/
def jsIncludes (s sub : String) : Bool := decide (sub.data <:+: s.data)

/-- JavaScript `s.startsWith(p)`, on character lists. -/
def jsStartsWith (s p : String) : Bool := p.data.isPrefixOf s.data

/-- JavaScript `s.toLowerCase()` (ASCII, which covers every string the
source compares). -/
def jsToLower (s : String) : String := String.mk (s.data.map Char.toLower)

/-- JavaScript `s.trim()`, on character lists. -/
def jsTrim (s : String) : String :=
  String.mk (((s.data.dropWhile Char.isWhitespace).reverse.dropWhile
    Char.isWhitespace).reverse)

/-- Model of `vscode.workspace.asRelativePath(uri, false)`: the path
relative to the workspace root containing it, or the path itself when no
root contains it. -/
def asRelativePath (roots : List Path) (p : Path) : Path :=
  match roots.find? (fun r => r.isPrefixOf p) with
  | some r => p.drop r.length
  | none => p

/-- Model of `vscode.workspace.getWorkspaceFolder(uri)?.uri.fsPath || ""`
(the empty path stands for the empty string). -/
def getWorkspaceRoot (roots : List Path) (p : Path) : Path :=
  (roots.find? (fun r => r.isPrefixOf p)).getD []

/-- The CachedFolder literal built by the scanner and by
`handleFolderCreated` for an emitted directory. -/
def mkRecord (roots : List Path) (now : Nat) (p : Path) (name : String) : CachedFolder :=
  { uri := p
    relativePath := asRelativePath roots p
    folderName := name
    workspaceRoot := getWorkspaceRoot roots p
    lastModified := now }

/-- The inner `for (const [name, fileType] of entries)` loop of
`scanFolders`: walks the directory entries, and for each directory child
that is neither ignored, nor dot-excluded, nor already visited, marks it
visited, enqueues it at `depth + 1` and appends its record. -/
def processEntries (opts : ScanOptions) (roots : List Path) (now : Nat)
    (parent : Path) (depth : Nat) :
    List (String × FileType) →
    List (Path × Nat) × List Path × List CachedFolder →
    List (Path × Nat) × List Path × List CachedFolder
  | [], s => s
  | (name, ft) :: entries, (queue, visited, acc) =>
    if ft = FileType.directory then
      if name ∈ opts.ignoredFolders then
        processEntries opts roots now parent depth entries (queue, visited, acc)
      else if opts.ignoreDotFolders = true ∧ jsStartsWith name "." = true then
        processEntries opts roots now parent depth entries (queue, visited, acc)
      else if parent ++ [name] ∈ visited then
        processEntries opts roots now parent depth entries (queue, visited, acc)
      else
        processEntries opts roots now parent depth entries
          (queue ++ [(parent ++ [name], depth + 1)], (parent ++ [name]) :: visited,
            acc ++ [mkRecord roots now (parent ++ [name]) name])
    else
      processEntries opts roots now parent depth entries (queue, visited, acc)

/-- The `while (queue.length > 0 && allFolders.length < options.maxFolders)`
loop of `scanFolders`, as a fuel-indexed recursion over the loop state
`(queue, visited, allFolders)`. -/
def scanLoop (fs : Fs) (opts : ScanOptions) (roots : List Path) (now : Nat) :
    Nat → List (Path × Nat) × List Path × List CachedFolder → List CachedFolder
  | 0, (_, _, acc) => acc
  | _ + 1, ([], _, acc) => acc
  | fuel + 1, ((currentUri, depth) :: rest, visited, acc) =>
    if opts.maxFolders ≤ acc.length then acc
    else if opts.maxDepth ≤ depth then
      scanLoop fs opts roots now fuel (rest, visited, acc)
    else
      match fs currentUri with
      | none => scanLoop fs opts roots now fuel (rest, visited, acc)
      | some entries =>
        scanLoop fs opts roots now fuel
          (processEntries opts roots now currentUri depth entries (rest, visited, acc))

/-- `scanFolders`: BFS seeded with every root at depth 0, every root
pre-inserted into the visited set, starting from an empty result list. -/
def scanFolders (fs : Fs) (roots : List Path) (opts : ScanOptions) (now : Nat)
    (fuel : Nat) : List CachedFolder :=
  scanLoop fs opts roots now fuel (roots.map (fun r => (r, 0)), roots, [])

/-- FolderCacheManager.CACHE_VERSION. -/
def CACHE_VERSION : String := "1.0"

/-- FolderCacheManager.CACHE_EXPIRY_MS (24 hours). -/
def CACHE_EXPIRY_MS : Nat := 24 * 60 * 60 * 1000

/-- `shouldRebuildCache`: rebuild when no cache exists or a scan is in
progress, when the cache is older than the expiry window, or when the live
workspace roots differ in count or membership from the recorded ones. -/
def shouldRebuildCache (cache : Option FolderCache) (isScanning : Bool) (now : Nat)
    (currentRoots : List Path) : Bool :=
  match cache with
  | none => true
  | some c =>
    if isScanning then true
    else if CACHE_EXPIRY_MS < now - c.lastScan then true
    else if currentRoots.length ≠ c.workspaceRoots.length ∨
        ¬ (∀ r ∈ currentRoots, r ∈ c.workspaceRoots) then true
    else false

/-- `loadCache`: the stored value replaces the live cache only when its
version tag equals CACHE_VERSION; otherwise the live cache is unchanged
(`none` at startup). -/
def loadCache (prev stored : Option FolderCache) : Option FolderCache :=
  match stored with
  | some c => if c.version = CACHE_VERSION then some c else prev
  | none => prev

/-- `path.basename` on a component-list path. -/
def basename (p : Path) : String := p.getLastD ""

/-- `handleFolderCreated`: ignore excluded names, otherwise append a fresh
record for the created path. -/
def handleFolderCreated (opts : ScanOptions) (roots : List Path) (now : Nat)
    (p : Path) (folders : List CachedFolder) : List CachedFolder :=
  if basename p ∈ opts.ignoredFolders ∨
      (opts.ignoreDotFolders = true ∧ jsStartsWith (basename p) "." = true) then
    folders
  else
    folders ++ [mkRecord roots now p (basename p)]

/-- `handleFolderDeleted`: keep exactly the records whose absolute path
differs from the deleted one. -/
def handleFolderDeleted (p : Path) (folders : List CachedFolder) : List CachedFolder :=
  folders.filter (fun f => f.uri != p)

/-- A Change Tracker event: a directory was created or deleted. -/
inductive FsEvent where
  | created (p : Path)
  | deleted (p : Path)
  deriving DecidableEq

/-- Dispatch of one watcher event to its handler. -/
def applyEvent (opts : ScanOptions) (roots : List Path) (now : Nat)
    (folders : List CachedFolder) : FsEvent → List CachedFolder
  | FsEvent.created p => handleFolderCreated opts roots now p folders
  | FsEvent.deleted p => handleFolderDeleted p folders

/-- A sequence of watcher events applied to a cache generation. -/
def applyEvents (opts : ScanOptions) (roots : List Path) (now : Nat)
    (folders : List CachedFolder) (events : List FsEvent) : List CachedFolder :=
  events.foldl (applyEvent opts roots now) folders

/-- An event sequence is good when every creation event names a path that
is not already cached at the moment the event is handled. -/
def goodEvents (opts : ScanOptions) (roots : List Path) (now : Nat) :
    List CachedFolder → List FsEvent → Bool
  | _, [] => true
  | folders, FsEvent.created p :: events =>
    if p ∈ folders.map CachedFolder.uri then false
    else goodEvents opts roots now
      (applyEvent opts roots now folders (FsEvent.created p)) events
  | folders, FsEvent.deleted p :: events =>
    goodEvents opts roots now (applyEvent opts roots now folders (FsEvent.deleted p)) events

/-- A QuickPick item produced by the matcher (uri modelled by its fsPath
string, as the matcher only ever uses the string). -/
structure FolderItem where
  label : String
  description : String
  uri : String
  deriving DecidableEq

/-- The ordered-segment cursor scan of `filterFolders`: advance through the
remaining query segments each time the current path segment contains the
current query segment; succeed when all query segments are consumed. -/
def segmentScan : List String → List String → Bool
  | _, [] => true
  | [], _ => false
  | p :: ps, q :: qs =>
    if jsIncludes p q then segmentScan ps qs else segmentScan ps (q :: qs)

/-- `split(/[\\/]+/)`: split on maximal runs of path separators, keeping a
leading or trailing empty part exactly as the JavaScript regex split does.
Returns the JS result reversed-then-fixed via a right fold; the first
component of the state records whether the neighbouring character to the
right was a separator. -/
def splitSepsChars : List Char → Bool × List Char × List String
  | [] => (false, [], [])
  | c :: rest =>
    match splitSepsChars rest with
    | (prevSep, cur, acc) =>
      if c = '/' ∨ c = '\\' then
        if prevSep then (true, cur, acc)
        else (true, [], String.mk cur :: acc)
      else (false, c :: cur, acc)

/-- String-level wrapper of `splitSepsChars`. -/
def splitSeps (s : String) : List String :=
  match splitSepsChars s.data with
  | (_, cur, acc) => String.mk cur :: acc

/-- The per-folder loop body of `filterFolders` for a non-blank query. -/
def matchLoop (rel : String → String) (queryLower : String)
    (querySegments : List String) : List String → List FolderItem
  | [] => []
  | uri :: rest =>
    if jsIncludes (jsToLower ((splitSeps (rel uri)).getLastD "")) queryLower ∨
        jsIncludes (jsToLower (rel uri)) queryLower then
      { label := rel uri, description := uri, uri := uri } ::
        matchLoop rel queryLower querySegments rest
    else if 1 < querySegments.length then
      if segmentScan ((splitSeps (rel uri)).map jsToLower) querySegments then
        { label := rel uri, description := uri, uri := uri } ::
          matchLoop rel queryLower querySegments rest
      else matchLoop rel queryLower querySegments rest
    else matchLoop rel queryLower querySegments rest

/-- `filterFolders`, parameterised by the `asRelativePath` function of the
host (`rel`): blank queries map every folder through unchanged; non-blank
queries keep the folders accepted by the substring or ordered-segment
rules, in their original order. -/
def filterFolders (rel : String → String) (folders : List String)
    (query : String) : List FolderItem :=
  if (jsTrim query).data.isEmpty then
    folders.map (fun uri => { label := rel uri, description := uri, uri := uri })
  else
    matchLoop rel (jsToLower query)
      (((splitSeps query).filter (fun s => !s.data.isEmpty)).map jsToLower) folders

/-- Defaults of `getConfiguration` in the source. -/
def defaultScanOptions : ScanOptions :=
  { maxFolders := 10000
    maxDepth := 5
    ignoredFolders := ["node_modules", ".git", ".vscode", "dist", "build", "out",
      ".cursor", ".github", ".husky"]
    ignoreDotFolders := true }

/-- A one-root, one-child filesystem: `r` containing the directory `a`. -/
def fsA : Fs := fun p =>
  if p = ["r"] then some [("a", FileType.directory)]
  else if p = ["r", "a"] then some []
  else none

/-- A root with three child directories, none of them readable further. -/
def fsWide : Fs := fun p =>
  if p = ["r"] then
    some [("a", FileType.directory), ("b", FileType.directory), ("c", FileType.directory)]
  else none

/-- A filesystem on which every directory read fails. -/
def fsNone : Fs := fun _ => none

/-- The end-to-end example tree: node_modules, src, src/utils and .git
under the root `w`. -/
def fsEndToEnd : Fs := fun p =>
  if p = ["w"] then
    some [("node_modules", FileType.directory), ("src", FileType.directory),
      (".git", FileType.directory)]
  else if p = ["w", "src"] then some [("utils", FileType.directory)]
  else if p = ["w", "src", "utils"] then some []
  else none

/-- Scan options with no ignore rules beyond the dot rule. -/
def optsPlain : ScanOptions :=
  { maxFolders := 10000, maxDepth := 5, ignoredFolders := [], ignoreDotFolders := true }

/-- `optsPlain` with a zero depth budget. -/
def optsDepth0 : ScanOptions := { optsPlain with maxDepth := 0 }

/-- `optsPlain` capped at one collected folder. -/
def optsCap1 : ScanOptions := { optsPlain with maxFolders := 1 }

/-- A stored cache generation built from the single root `a`. -/
def cacheA : FolderCache :=
  { folders := [], lastScan := 0, workspaceRoots := [["a"]], version := "1.0" }

/-- The record the scanner emits for `r/a` under root `r`. -/
def recA : CachedFolder := mkRecord [["r"]] 0 ["r", "a"] "a"

/-- The record the scanner emits for `r/a/b` under root `r`. -/
def recAB : CachedFolder := mkRecord [["r"]] 0 ["r", "a", "b"] "b"

/-- Invariant of a queue entry: its path extends some root by exactly its
recorded depth. -/
def QInv (roots : List Path) (x : Path × Nat) : Prop :=
  ∃ r, r ∈ roots ∧ r <+: x.1 ∧ x.1.length = r.length + x.2

/-- Invariant of every record the scan collects: it extends some root by at
most `maxDepth` components, it is not itself a root, and its leaf name
passed the ignore rules. -/
def RecInv (opts : ScanOptions) (roots : List Path) (rec : CachedFolder) : Prop :=
  (∃ r, r ∈ roots ∧ r <+: rec.uri ∧ rec.uri.length ≤ r.length + opts.maxDepth) ∧
  rec.uri ∉ roots ∧
  rec.folderName ∉ opts.ignoredFolders ∧
  (opts.ignoreDotFolders = true → jsStartsWith rec.folderName "." = false)

/-- Invariant of the whole loop state: queue entries are well-depthed, the
visited set contains every root and the path of every collected record,
and the collected records have pairwise distinct paths and satisfy
`RecInv`. -/
def StInv (opts : ScanOptions) (roots : List Path)
    (s : List (Path × Nat) × List Path × List CachedFolder) : Prop :=
  (∀ x ∈ s.1, QInv roots x) ∧
  (∀ r ∈ roots, r ∈ s.2.1) ∧
  (∀ rec ∈ s.2.2, rec.uri ∈ s.2.1) ∧
  (s.2.2.map CachedFolder.uri).Nodup ∧
  (∀ rec ∈ s.2.2, RecInv opts roots rec)

lemma processEntries_inv (opts : ScanOptions) (roots : List Path) (now : Nat)
    (parent : Path) (depth : Nat)
    (hp : QInv roots (parent, depth)) (hd : depth < opts.maxDepth) :
    ∀ (entries : List (String × FileType))
      (s : List (Path × Nat) × List Path × List CachedFolder),
      StInv opts roots s →
      StInv opts roots (processEntries opts roots now parent depth entries s) := by
  intro entries
  induction entries with
  | nil =>
    rintro ⟨queue, visited, acc⟩ hs
    simpa [processEntries] using hs
  | cons e entries ih =>
    rintro ⟨queue, visited, acc⟩ hs
    obtain ⟨name, ft⟩ := e
    unfold StInv at hs
    obtain ⟨hq, hr, hv, hn, hrec⟩ := hs
    simp only [processEntries]
    split_ifs with h1 h2 h3 h4
    · exact ih _ ⟨hq, hr, hv, hn, hrec⟩
    · exact ih _ ⟨hq, hr, hv, hn, hrec⟩
    · exact ih _ ⟨hq, hr, hv, hn, hrec⟩
    · refine ih _ ?_
      unfold QInv at hp
      obtain ⟨r, hrm, ⟨t, ht⟩, hlen⟩ := hp
      unfold StInv
      refine ⟨?_, ?_, ?_, ?_, ?_⟩
      · intro x hx
        rcases List.mem_append.1 hx with hx | hx
        · exact hq x hx
        · have hx2 : x = (parent ++ [name], depth + 1) := by simpa using hx
          subst hx2
          exact ⟨r, hrm, ⟨t ++ [name], by rw [← List.append_assoc, ht]⟩,
            by simp only [List.length_append, List.length_cons, List.length_nil] at hlen ⊢
               omega⟩
      · intro r2 hr2
        exact List.mem_cons_of_mem _ (hr r2 hr2)
      · intro rec hrec2
        rcases List.mem_append.1 hrec2 with hrec2 | hrec2
        · exact List.mem_cons_of_mem _ (hv rec hrec2)
        · have : rec = mkRecord roots now (parent ++ [name]) name := by simpa using hrec2
          subst this
          simp [mkRecord]
      · rw [List.map_append]
        refine List.Nodup.append hn (List.nodup_singleton _) ?_
        intro u hu1 hu2
        have hu2a : u = parent ++ [name] := by simpa [mkRecord] using hu2
        rcases List.mem_map.1 hu1 with ⟨rec, hrecmem, hrecuri⟩
        exact h4 (by rw [← hu2a, ← hrecuri]; exact hv rec hrecmem)
      · intro rec hrec2
        rcases List.mem_append.1 hrec2 with hrec2 | hrec2
        · exact hrec rec hrec2
        · have : rec = mkRecord roots now (parent ++ [name]) name := by simpa using hrec2
          subst this
          unfold RecInv
          refine ⟨?_, ?_, ?_, ?_⟩
          · exact ⟨r, hrm, ⟨t ++ [name], by simp [mkRecord, ← List.append_assoc, ht]⟩,
              by simp only [mkRecord, List.length_append, List.length_cons,
                   List.length_nil] at hlen ⊢
                 omega⟩
          · intro hmem
            exact h4 (hr _ (by simpa [mkRecord] using hmem))
          · simpa [mkRecord] using h2
          · intro hdot
            cases hsw : jsStartsWith (mkRecord roots now (parent ++ [name]) name).folderName "."
            · rfl
            · exact absurd ⟨hdot, by simpa [mkRecord] using hsw⟩ h3
    · exact ih _ ⟨hq, hr, hv, hn, hrec⟩

lemma scanLoop_inv (fs : Fs) (opts : ScanOptions) (roots : List Path) (now : Nat) :
    ∀ (fuel : Nat) (s : List (Path × Nat) × List Path × List CachedFolder),
      StInv opts roots s →
      ((scanLoop fs opts roots now fuel s).map CachedFolder.uri).Nodup ∧
      ∀ rec ∈ scanLoop fs opts roots now fuel s, RecInv opts roots rec := by
  intro fuel
  induction fuel with
  | zero =>
    rintro ⟨queue, visited, acc⟩ hs
    unfold StInv at hs
    simp only [scanLoop]
    exact ⟨hs.2.2.2.1, hs.2.2.2.2⟩
  | succ fuel ih =>
    rintro ⟨queue, visited, acc⟩ hs
    unfold StInv at hs
    rcases queue with _ | ⟨⟨currentUri, depth⟩, rest⟩
    · simp only [scanLoop]
      exact ⟨hs.2.2.2.1, hs.2.2.2.2⟩
    · have hs2 : StInv opts roots (rest, visited, acc) :=
        ⟨fun x hx => hs.1 x (List.mem_cons_of_mem _ hx), hs.2⟩
      simp only [scanLoop]
      split_ifs with hcap hdep
      · exact ⟨hs.2.2.2.1, hs.2.2.2.2⟩
      · exact ih _ hs2
      · cases hfs : fs currentUri with
        | none => exact ih _ hs2
        | some entries =>
          exact ih _ (processEntries_inv opts roots now currentUri depth
            (hs.1 _ (List.mem_cons_self _ _)) (not_le.1 hdep) entries _ hs2)

lemma scanFolders_inv (fs : Fs) (roots : List Path) (opts : ScanOptions)
    (now fuel : Nat) :
    ((scanFolders fs roots opts now fuel).map CachedFolder.uri).Nodup ∧
    ∀ rec ∈ scanFolders fs roots opts now fuel, RecInv opts roots rec := by
  refine scanLoop_inv fs opts roots now fuel _ ?_
  unfold StInv
  refine ⟨?_, fun r hr => hr, by simp, by simp, by simp⟩
  intro x hx
  rcases List.mem_map.1 hx with ⟨r, hrm, rfl⟩
  exact ⟨r, hrm, ⟨[], by simp⟩, by simp⟩

lemma scanLoop_depth_zero (fs : Fs) (opts : ScanOptions) (roots : List Path)
    (now : Nat) (h : opts.maxDepth = 0) :
    ∀ (fuel : Nat) (queue : List (Path × Nat)) (visited : List Path),
      scanLoop fs opts roots now fuel (queue, visited, []) = [] := by
  intro fuel
  induction fuel with
  | zero => intro queue visited; simp [scanLoop]
  | succ fuel ih =>
    intro queue visited
    rcases queue with _ | ⟨⟨currentUri, depth⟩, rest⟩
    · simp [scanLoop]
    · simp only [scanLoop]
      split_ifs with hcap hdep
      · rfl
      · exact ih rest visited
      · exact absurd (by omega : opts.maxDepth ≤ depth) hdep

lemma applyEvents_nodup (opts : ScanOptions) (roots : List Path) (now : Nat) :
    ∀ (events : List FsEvent) (folders : List CachedFolder),
      (folders.map CachedFolder.uri).Nodup →
      goodEvents opts roots now folders events = true →
      ((applyEvents opts roots now folders events).map CachedFolder.uri).Nodup := by
  intro events
  induction events with
  | nil => intro folders hn _; simpa [applyEvents] using hn
  | cons e events ih =>
    intro folders hn hg
    cases e with
    | created p =>
      rw [goodEvents] at hg
      split_ifs at hg with hmem
      refine ih (applyEvent opts roots now folders (FsEvent.created p)) ?_ hg
      simp only [applyEvent, handleFolderCreated]
      split_ifs with hig
      · exact hn
      · rw [List.map_append]
        refine List.Nodup.append hn (List.nodup_singleton _) ?_
        intro u hu1 hu2
        have hu2a : u = p := by simpa [mkRecord] using hu2
        exact hmem (hu2a ▸ hu1)
    | deleted p =>
      rw [goodEvents] at hg
      refine ih (applyEvent opts roots now folders (FsEvent.deleted p)) ?_ hg
      simp only [applyEvent, handleFolderDeleted]
      exact List.Nodup.sublist (List.Sublist.map _ (List.filter_sublist _)) hn

/-- C1 counterexample: scanning the non-empty root set made of `r` with
maxDepth = 0 returns the empty list rather than the root paths, and even
with a positive depth budget the root path never appears among the
returned records. -/
theorem scan_result_omits_roots_cex :
    ((scanFolders fsA [["r"]] optsDepth0 0 4).map CachedFolder.uri ≠ [["r"]]) ∧
    ["r"] ∉ (scanFolders fsA [["r"]] optsPlain 0 8).map CachedFolder.uri := by
  exact ⟨by decide, by decide⟩

/-- C1 amended: a scan invoked with maxDepth = 0 returns the empty list,
and more generally no returned record's absolute path is one of the scan
roots: the roots are only seeded into the queue and the visited set, and
records are emitted solely for newly discovered strict descendants. -/
theorem scan_depth_zero_empty_and_roots_never_emitted (fs : Fs) (roots : List Path)
    (opts : ScanOptions) (now fuel : Nat) :
    (opts.maxDepth = 0 → scanFolders fs roots opts now fuel = []) ∧
    ∀ rec ∈ scanFolders fs roots opts now fuel, rec.uri ∉ roots :=
  ⟨fun h => scanLoop_depth_zero fs opts roots now h fuel _ _,
   fun rec hrec => ((scanFolders_inv fs roots opts now fuel).2 rec hrec).2.1⟩

/-- C1 amended, witness at a concrete scan. -/
theorem scan_depth_zero_empty_and_roots_never_emitted_witness :
    scanFolders fsA [["r"]] optsDepth0 0 4 = [] :=
  (scan_depth_zero_empty_and_roots_never_emitted fsA [["r"]] optsDepth0 0 4).1 rfl

/-- C2 counterexample: after a full scan that recorded `r/a`, a creation
event for the same path `r/a` appends a second record with the same
absolute path, so absolute paths are not unique in the mutated
generation. -/
theorem created_event_duplicates_path :
    ¬ (((applyEvents optsPlain [["r"]] 1
        (scanFolders fsA [["r"]] optsPlain 0 8)
        [FsEvent.created ["r", "a"]]).map CachedFolder.uri).Nodup) := by decide

/-- C2 amended: the absolute path is unique across a generation produced by
a full scan and mutated by creation and deletion events, provided every
creation event names a path that is absent from the cache at the moment it
is handled (a creation event for an already-cached path appends a
duplicate record instead). -/
theorem cache_paths_unique_of_goodEvents (fs : Fs) (roots : List Path)
    (opts : ScanOptions) (now now2 fuel : Nat) (events : List FsEvent)
    (h : goodEvents opts roots now2 (scanFolders fs roots opts now fuel) events = true) :
    ((applyEvents opts roots now2 (scanFolders fs roots opts now fuel)
      events).map CachedFolder.uri).Nodup :=
  applyEvents_nodup opts roots now2 events _ (scanFolders_inv fs roots opts now fuel).1 h

/-- C2 amended, witness on a concrete scan and event sequence. -/
theorem cache_paths_unique_of_goodEvents_witness :
    ((applyEvents optsPlain [["r"]] 1 (scanFolders fsA [["r"]] optsPlain 0 8)
      [FsEvent.created ["r", "b"], FsEvent.deleted ["r", "a"]]).map
        CachedFolder.uri).Nodup :=
  cache_paths_unique_of_goodEvents fsA [["r"]] optsPlain 0 1 8
    [FsEvent.created ["r", "b"], FsEvent.deleted ["r", "a"]] (by decide)

/-- C3: on the folder list [backend/api/handlers, backend/apiserver] the
query "back/api" matches both folders, while the reversed query "api/back"
matches neither and yields the empty list. -/
theorem filter_segment_order_example :
    (filterFolders id ["backend/api/handlers", "backend/apiserver"]
      "back/api").map FolderItem.uri =
      ["backend/api/handlers", "backend/apiserver"] ∧
    filterFolders id ["backend/api/handlers", "backend/apiserver"] "api/back" = [] := by
  exact ⟨by decide, by decide⟩

/-- C4: whenever the live duplicate-free root list differs as a set from
the duplicate-free root list recorded in a stored generation,
shouldRebuildCache demands a full rescan, whatever the other freshness
checks say. -/
theorem roots_membership_change_forces_rebuild (c : FolderCache) (scanning : Bool)
    (now : Nat) (currentRoots : List Path)
    (h1 : currentRoots.Nodup) (h2 : c.workspaceRoots.Nodup)
    (h3 : currentRoots.toFinset ≠ c.workspaceRoots.toFinset) :
    shouldRebuildCache (some c) scanning now currentRoots = true := by
  simp only [shouldRebuildCache]
  split_ifs with hscan hage hroots
  · rfl
  · rfl
  · rfl
  · exfalso
    apply h3
    push_neg at hroots
    obtain ⟨hlen, hsub⟩ := hroots
    have hsubset : currentRoots.toFinset ⊆ c.workspaceRoots.toFinset := by
      intro x hx
      rw [List.mem_toFinset] at hx ⊢
      exact hsub x hx
    refine Finset.eq_of_subset_of_card_le hsubset ?_
    have hc1 := List.toFinset_card_of_nodup h1
    have hc2 := List.toFinset_card_of_nodup h2
    omega

/-- C4 witness: stored roots a, live roots a and b, with a fresh cache. -/
theorem roots_membership_change_forces_rebuild_witness :
    shouldRebuildCache (some cacheA) false 0 [["a"], ["b"]] = true :=
  roots_membership_change_forces_rebuild cacheA false 0 [["a"], ["b"]]
    (by decide) (by decide) (by decide)

/-- C5: once the collected record count has reached maxFolders the scan
loop returns at once, dequeuing nothing further and emitting or enqueuing
nothing further; the cap is checked only per dequeue, so the records
inserted while one directory's entries are processed are never truncated:
with maxFolders = 1 a root with three children still yields three
records. -/
theorem scan_cap_stops_loop :
    (∀ (fs : Fs) (opts : ScanOptions) (roots : List Path) (now fuel : Nat)
        (queue : List (Path × Nat)) (visited : List Path) (acc : List CachedFolder),
        opts.maxFolders ≤ acc.length →
        scanLoop fs opts roots now fuel (queue, visited, acc) = acc) ∧
    (scanFolders fsWide [["r"]] optsCap1 0 4).length = 3 := by
  refine ⟨?_, by decide⟩
  intro fs opts roots now fuel queue visited acc h
  cases fuel with
  | zero => simp [scanLoop]
  | succ fuel =>
    rcases queue with _ | ⟨⟨currentUri, depth⟩, rest⟩
    · simp [scanLoop]
    · simp [scanLoop, h]

/-- C5 witness: a full accumulator makes the loop return it unchanged. -/
theorem scan_cap_stops_loop_witness :
    scanLoop fsWide optsCap1 [["r"]] 0 4 ([(["r"], 0)], [["r"]], [recA]) = [recA] :=
  scan_cap_stops_loop.1 fsWide optsCap1 [["r"]] 0 4 [(["r"], 0)] [["r"]] [recA]
    (by decide)

/-- C6: every record returned by a scan extends one of the scan roots, by
at most maxDepth path components beyond that root. -/
theorem scan_records_within_maxDepth (fs : Fs) (roots : List Path)
    (opts : ScanOptions) (now fuel : Nat) (rec : CachedFolder)
    (h : rec ∈ scanFolders fs roots opts now fuel) :
    ∃ r, r ∈ roots ∧ r <+: rec.uri ∧ rec.uri.length ≤ r.length + opts.maxDepth :=
  ((scanFolders_inv fs roots opts now fuel).2 rec h).1

/-- C6 witness at a concrete scanned record. -/
theorem scan_records_within_maxDepth_witness :
    ∃ r, r ∈ [["w"]] ∧ r <+: (mkRecord [["w"]] 0 ["w", "src", "utils"] "utils").uri ∧
      (mkRecord [["w"]] 0 ["w", "src", "utils"] "utils").uri.length ≤
        r.length + defaultScanOptions.maxDepth :=
  scan_records_within_maxDepth fsEndToEnd [["w"]] defaultScanOptions 0 8
    (mkRecord [["w"]] 0 ["w", "src", "utils"] "utils") (by decide)

/-- C7: no record returned by any scan has a leaf name in ignoredFolders,
and under ignoreDotFolders no returned leaf name starts with a dot; on the
end-to-end tree (node_modules, src, src/utils, .git) with the default
options the scan returns exactly src and src/utils. -/
theorem scan_records_respect_ignore_rules :
    (∀ (fs : Fs) (roots : List Path) (opts : ScanOptions) (now fuel : Nat)
        (rec : CachedFolder), rec ∈ scanFolders fs roots opts now fuel →
        rec.folderName ∉ opts.ignoredFolders ∧
        (opts.ignoreDotFolders = true → jsStartsWith rec.folderName "." = false)) ∧
    (scanFolders fsEndToEnd [["w"]] defaultScanOptions 0 8).map CachedFolder.uri =
      [["w", "src"], ["w", "src", "utils"]] := by
  refine ⟨?_, by decide⟩
  intro fs roots opts now fuel rec h
  exact ⟨((scanFolders_inv fs roots opts now fuel).2 rec h).2.2.1,
    ((scanFolders_inv fs roots opts now fuel).2 rec h).2.2.2⟩

/-- C7 witness at a concrete scanned record. -/
theorem scan_records_respect_ignore_rules_witness :
    (mkRecord [["w"]] 0 ["w", "src"] "src").folderName ∉
      defaultScanOptions.ignoredFolders ∧
    (defaultScanOptions.ignoreDotFolders = true →
      jsStartsWith (mkRecord [["w"]] 0 ["w", "src"] "src").folderName "." = false) :=
  scan_records_respect_ignore_rules.1 fsEndToEnd [["w"]] defaultScanOptions 0 8
    (mkRecord [["w"]] 0 ["w", "src"] "src") (by decide)

/-- C8: a directory whose listing fails is simply skipped: the loop step on
an unreadable head continues with the remaining queue, the same visited
set and the same collected records, so the unreadable directory and its
children contribute nothing and the scan still returns the partial result
of the readable part (the embedding is total, so no failure is ever
raised). -/
theorem scan_skips_unreadable_directory (fs : Fs) (opts : ScanOptions)
    (roots : List Path) (now fuel depth : Nat) (p : Path)
    (rest : List (Path × Nat)) (visited : List Path) (acc : List CachedFolder)
    (hread : fs p = none) (hcap : acc.length < opts.maxFolders) :
    scanLoop fs opts roots now (fuel + 1) ((p, depth) :: rest, visited, acc) =
      scanLoop fs opts roots now fuel (rest, visited, acc) := by
  simp only [scanLoop]
  rw [if_neg (not_le.2 hcap)]
  by_cases hdep : opts.maxDepth ≤ depth
  · rw [if_pos hdep]
  · rw [if_neg hdep, hread]

/-- C8 witness on the everywhere-unreadable filesystem. -/
theorem scan_skips_unreadable_directory_witness :
    scanLoop fsNone optsPlain [["r"]] 0 1 ([(["r"], 0)], [["r"]], []) =
      scanLoop fsNone optsPlain [["r"]] 0 0 ([], [["r"]], []) :=
  scan_skips_unreadable_directory fsNone optsPlain [["r"]] 0 0 0 ["r"] [] [["r"]] []
    rfl (by decide)

/-- C9: at startup, a stored value becomes the live cache exactly when its
version tag equals CACHE_VERSION; otherwise the live cache stays absent,
and an absent cache always makes shouldRebuildCache demand a full
rebuild on the next access. -/
theorem loadCache_version_gate (stored : Option FolderCache) :
    (∀ c, loadCache none stored = some c ↔
      stored = some c ∧ c.version = CACHE_VERSION) ∧
    (loadCache none stored = none → ∀ (scanning : Bool) (now : Nat)
      (currentRoots : List Path),
      shouldRebuildCache (loadCache none stored) scanning now currentRoots = true) := by
  constructor
  · intro c
    cases stored with
    | none => simp [loadCache]
    | some d =>
      by_cases hv : d.version = CACHE_VERSION
      · simp only [loadCache, if_pos hv, Option.some.injEq]
        constructor
        · rintro rfl; exact ⟨rfl, hv⟩
        · rintro ⟨h, _⟩; exact h
      · simp only [loadCache, if_neg hv]
        constructor
        · intro h; exact absurd h (by simp)
        · rintro ⟨h, hver⟩
          rw [Option.some.injEq] at h
          subst h
          exact absurd hver hv
  · intro h scanning now currentRoots
    rw [h]
    rfl

/-- C9 witness: a stored cache with a stale version tag is discarded and
the next freshness check demands a rebuild. -/
theorem loadCache_version_gate_witness :
    shouldRebuildCache
      (loadCache none (some { cacheA with version := "0.9" })) false 0 [] = true :=
  (loadCache_version_gate (some { cacheA with version := "0.9" })).2 (by decide)
    false 0 []

/-- C10: the deletion handler keeps exactly the records whose absolute path
differs from the deleted path, as a sublist of the original list (so every
survivor keeps its original relative order), and in particular every
record for a strict descendant of the deleted path survives. -/
theorem deleted_event_removes_exact_path (p : Path) (folders : List CachedFolder) :
    (∀ f, f ∈ handleFolderDeleted p folders ↔ f ∈ folders ∧ f.uri ≠ p) ∧
    (handleFolderDeleted p folders).Sublist folders ∧
    (∀ f ∈ folders, p <+: f.uri → p ≠ f.uri → f ∈ handleFolderDeleted p folders) := by
  have hmem : ∀ f, f ∈ handleFolderDeleted p folders ↔ f ∈ folders ∧ f.uri ≠ p := by
    intro f
    unfold handleFolderDeleted
    rw [List.mem_filter]
    simp [bne_iff_ne]
  refine ⟨hmem, ?_, ?_⟩
  · exact List.filter_sublist _
  · intro f hf hpre hne
    exact (hmem f).2 ⟨hf, fun he => hne he.symm⟩

/-- C10 witness: deleting r/a keeps the record of its descendant r/a/b. -/
theorem deleted_event_removes_exact_path_witness :
    recAB ∈ handleFolderDeleted ["r", "a"] [recA, recAB] :=
  (deleted_event_removes_exact_path ["r", "a"] [recA, recAB]).2.2 recAB
    (by decide) ⟨["b"], by decide⟩ (by decide)

end FolderSelector
